import Mathlib

/-!
Shallow embedding of the snapshot/file-status state machine of the
`obsidian-vault-review` plugin (`src/main.ts`, the later revision that carries
the terminal `deleted` status).  The plugin keeps an optional snapshot — an
ordered list of tracked files, each a vault path plus a review status — inside
a persisted settings object, and mutates it in response to user commands and
vault rename/delete events.  Pure functions below mirror the TypeScript
methods; user-visible `Notice` calls are modelled as an explicit list of
emitted message strings, and `Math.random()` is modelled by an explicit index
argument.
-/

namespace VaultReview

/-- Review status stored for a tracked file inside a snapshot
(`SnapshotFileStatus` in `src/main.ts`). -/
inductive SnapshotFileStatus where
  | to_review
  | reviewed
  | deleted
  deriving DecidableEq, Repr

/-- Derived status of an arbitrary path (`FileStatus` in `src/main.ts`):
`new` when the path is untracked, otherwise the stored status. -/
inductive FileStatus where
  | new
  | to_review
  | reviewed
  | deleted
  deriving DecidableEq, Repr

/-- Inclusion of stored statuses into derived statuses. -/
def SnapshotFileStatus.toFileStatus : SnapshotFileStatus → FileStatus
  | .to_review => .to_review
  | .reviewed => .reviewed
  | .deleted => .deleted

/-- A tracked file: vault-relative path plus review status
(the branded `File` record of `src/main.ts`). -/
structure File where
  path : String
  status : SnapshotFileStatus
  deriving DecidableEq, Repr

/-- Constructs a TrackedFile from a path and a status
(`toFile` in `src/main.ts`, which copies `file.path` and the given status). -/
def toFile (path : String) (status : SnapshotFileStatus) : File :=
  { path := path, status := status }

/-- A snapshot: ordered tracked files plus creation time
(`Snapshot` in `src/main.ts`; `Date` is modelled as a `Nat` timestamp). -/
structure Snapshot where
  files : List File
  createdAt : Nat
  deriving DecidableEq, Repr

/-- Plugin display settings (`Settings` in `src/main.ts`). -/
structure Settings where
  showStatusBar : Bool
  deriving DecidableEq, Repr

/-- The persisted settings object (`VaultReviewSettings` in `src/main.ts`):
an optional snapshot plus display settings. -/
structure VaultReviewSettings where
  snapshot : Option Snapshot
  settings : Settings
  deriving DecidableEq, Repr

/-- Result of `deleteSnapshot` (`DeleteSnapshotResult` in `src/main.ts`). -/
inductive DeleteSnapshotResult where
  | deleted
  | cancelled
  deriving DecidableEq, Repr

/-- `getSnapshotFile` in `src/main.ts`: first tracked file whose path equals
the given path, `none` when the snapshot is absent or the path untracked. -/
def getSnapshotFile (s : VaultReviewSettings) (path : String) : Option File :=
  match s.snapshot with
  | none => none
  | some snap => snap.files.find? (fun f => f.path = path)

/-- `getActiveFileStatus` in `src/main.ts`, parametrised by the active file's
path: the stored status when tracked, `new` otherwise. -/
def getActiveFileStatus (s : VaultReviewSettings) (activePath : String) : FileStatus :=
  match getSnapshotFile s activePath with
  | some f => f.status.toFileStatus
  | none => FileStatus.new

/-- `getToReviewFiles` in `src/main.ts`: the tracked files whose status is
`to_review`, empty when no snapshot exists. -/
def getToReviewFiles (s : VaultReviewSettings) : List File :=
  match s.snapshot with
  | none => []
  | some snap => snap.files.filter (fun file => file.status = SnapshotFileStatus.to_review)

/-- `openRandomFile` in `src/main.ts`, with `Math.floor(Math.random() *
files.length)` modelled by the explicit index `i` (the real draw always lies
in `[0, files.length)` when the list is nonempty).  Returns the picked file
(fed to `focusFile` in the source) and the emitted notices. -/
def openRandomFile (s : VaultReviewSettings) (i : Nat) : Option File × List String :=
  match s.snapshot with
  | none => (none, ["Vault review snapshot is not created"])
  | some _ =>
    let files := getToReviewFiles s
    if files.isEmpty then (none, ["All files are reviewed"])
    else (files.get? i, [])

/-- In-place status update of the first tracked file with the given path,
as performed by `snapshotFile.status = ...` on the object returned by
`Array.prototype.find` in `src/main.ts`. -/
def setStatusFirst : List File → String → SnapshotFileStatus → List File
  | [], _, _ => []
  | f :: rest, p, st =>
    if f.path = p then { f with status := st } :: rest
    else f :: setStatusFirst rest p st

/-- In-place path rewrite of the first tracked file with the given old path,
as performed by `snapshotFile.path = file.path` in `src/main.ts`. -/
def setPathFirst : List File → String → String → List File
  | [], _, _ => []
  | f :: rest, oldPath, newPath =>
    if f.path = oldPath then { f with path := newPath } :: rest
    else f :: setPathFirst rest oldPath newPath

/-- `completeReview` in `src/main.ts` (the mutation part, `openNext = false`),
parametrised by the target path: when the path is untracked a notice is
emitted and `snapshot?.files.push` appends a `reviewed` entry (a silent no-op
when the snapshot is absent); when tracked, the found entry's status is set to
`reviewed` in place.  Returns the new state and the emitted notices. -/
def completeReview (s : VaultReviewSettings) (activePath : String) :
    VaultReviewSettings × List String :=
  match getSnapshotFile s activePath with
  | none =>
    (match s.snapshot with
     | none => s
     | some snap =>
       { s with snapshot := some ({ snap with files := snap.files ++ [toFile activePath .reviewed] }) },
     ["File was added to snapshot and marked as reviewed"])
  | some _ =>
    (match s.snapshot with
     | none => s
     | some snap =>
       { s with snapshot := some ({ snap with files := setStatusFirst snap.files activePath .reviewed }) },
     [])

/-- `unreviewFile` in `src/main.ts`, parametrised by the target path:
symmetric to `completeReview`, target status `to_review`. -/
def unreviewFile (s : VaultReviewSettings) (activePath : String) :
    VaultReviewSettings × List String :=
  match getSnapshotFile s activePath with
  | none =>
    (match s.snapshot with
     | none => s
     | some snap =>
       { s with snapshot := some ({ snap with files := snap.files ++ [toFile activePath .to_review] }) },
     ["File was added to snapshot and marked as not reviewed"])
  | some _ =>
    (match s.snapshot with
     | none => s
     | some snap =>
       { s with snapshot := some ({ snap with files := setStatusFirst snap.files activePath .to_review }) },
     [])

/-- `handleFileRename` in `src/main.ts` for a non-folder file: `filePath` is
the renamed file's new path (`file.path`), `oldPath` its old path.  When some
tracked file has the old path, its `path` field is rewritten in place;
otherwise nothing changes. -/
def handleFileRename (s : VaultReviewSettings) (filePath oldPath : String) :
    VaultReviewSettings :=
  match getSnapshotFile s oldPath with
  | none => s
  | some _ =>
    match s.snapshot with
    | none => s
    | some snap =>
      { s with snapshot := some ({ snap with files := setPathFirst snap.files oldPath filePath }) }

/-- `handleFileDelete` in `src/main.ts` for a non-folder file: when the
deleted path is tracked, the entry's status flips to `deleted` in place;
otherwise (or when no snapshot exists) nothing changes. -/
def handleFileDelete (s : VaultReviewSettings) (filePath : String) :
    VaultReviewSettings :=
  match s.snapshot with
  | none => s
  | some snap =>
    match snap.files.find? (fun f => f.path = filePath) with
    | none => s
    | some _ =>
      { s with snapshot := some ({ snap with files := setStatusFirst snap.files filePath .deleted }) }

/-- The missing-target branch of `focusFile` in `src/main.ts` (reached when
`getFileByPath` finds no real file at the tracked path): emits a notice and,
when a snapshot exists, removes every tracked file with that path via
`Array.prototype.filter`. -/
def focusFileMissing (s : VaultReviewSettings) (filePath : String) :
    VaultReviewSettings × List String :=
  match s.snapshot with
  | none => (s, ["Cannot find a file " ++ filePath])
  | some snap =>
    ({ s with snapshot := some ({ snap with files := snap.files.filter (fun fp => fp.path ≠ filePath) }) },
     ["Cannot find a file " ++ filePath])

/-- `deleteSnapshot` in `src/main.ts` with `askForConfirmation = true`,
parametrised by the user's decision in the confirmation modal: confirming
runs `onDelete` (snapshot cleared to absent, resolve `deleted`), declining
runs `onCancel` (no mutation, resolve `cancelled`). -/
def deleteSnapshot (s : VaultReviewSettings) (userConfirms : Bool) :
    VaultReviewSettings × DeleteSnapshotResult :=
  if userConfirms then ({ s with snapshot := none }, .deleted)
  else (s, .cancelled)

/-- The `Create snapshot` button of `VaultReviewSettingTab.display` in
`src/main.ts`: unconditionally replaces the snapshot with one fresh
`to_review` entry per vault path, in vault order, timestamped now. -/
def createSnapshot (s : VaultReviewSettings) (allPaths : List String) (now : Nat) :
    VaultReviewSettings :=
  { s with snapshot := some ({ files := allPaths.map (fun p => toFile p .to_review), createdAt := now }) }

/-- The appended entries of `addNewFiles`: a fresh `to_review` tracked file
for every input path not already tracked (exact path match). -/
def newFilesFor (files : List File) (allPaths : List String) : List File :=
  (allPaths.filter (fun p => !(files.any (fun f => f.path = p)))).map
    (fun p => toFile p .to_review)

/-- The `Add all new files to snapshot` button of
`VaultReviewSettingTab.display` in `src/main.ts`: appends a `to_review` entry
for every vault path not already tracked (exact path match); the
optional-chained push makes the whole action a no-op when no snapshot
exists. -/
def addNewFiles (s : VaultReviewSettings) (allPaths : List String) :
    VaultReviewSettings :=
  match s.snapshot with
  | none => s
  | some snap =>
    { s with snapshot := some ({ snap with files := snap.files ++ newFilesFor snap.files allPaths }) }

/-- Uniqueness invariant: at most one tracked file per path within the
snapshot (vacuously true when no snapshot exists). -/
def UniqPaths (s : VaultReviewSettings) : Prop :=
  (((s.snapshot.map Snapshot.files).getD []).map File.path).Nodup

instance (s : VaultReviewSettings) : Decidable (UniqPaths s) :=
  List.nodupDecidable ((((s.snapshot.map Snapshot.files).getD []).map File.path))

@[simp] theorem toFile_path (p : String) (st : SnapshotFileStatus) :
    (toFile p st).path = p := rfl

@[simp] theorem toFile_status (p : String) (st : SnapshotFileStatus) :
    (toFile p st).status = st := rfl

/-- Concrete state used by witnesses: snapshot `[{A, to_review}, {B, reviewed}]`. -/
def exInit : VaultReviewSettings :=
  ⟨some ⟨[toFile "A" .to_review, toFile "B" .reviewed], 0⟩, ⟨true⟩⟩

/-- Concrete state used by counterexamples: snapshot
`[{a, to_review}, {b, deleted}]` (a deleted entry keeps its path tracked). -/
def exDeletedTracked : VaultReviewSettings :=
  ⟨some ⟨[toFile "a" .to_review, toFile "b" .deleted], 0⟩, ⟨true⟩⟩

/-- Concrete state used by witnesses: no snapshot. -/
def exNoSnapshot : VaultReviewSettings := ⟨none, ⟨true⟩⟩

theorem setStatusFirst_map_path (files : List File) (p : String) (st : SnapshotFileStatus) :
    (setStatusFirst files p st).map File.path = files.map File.path := by
  induction files with
  | nil => rfl
  | cons f rest ih =>
    by_cases h : f.path = p
    · simp [setStatusFirst, h]
    · simp [setStatusFirst, h, ih]

theorem setStatusFirst_length (files : List File) (p : String) (st : SnapshotFileStatus) :
    (setStatusFirst files p st).length = files.length := by
  have h := congrArg List.length (setStatusFirst_map_path files p st)
  simpa using h

theorem setStatusFirst_forall₂ (files : List File) (p : String) (st : SnapshotFileStatus) :
    List.Forall₂ (fun a b => b.path = a.path ∧ (a.path ≠ p → b = a))
      files (setStatusFirst files p st) := by
  induction files with
  | nil => exact List.Forall₂.nil
  | cons f rest ih =>
    by_cases h : f.path = p
    · simp only [setStatusFirst, if_pos h]
      exact List.Forall₂.cons ⟨rfl, fun hne => absurd h hne⟩
        (List.forall₂_same.mpr fun a _ => ⟨rfl, fun _ => rfl⟩)
    · simp only [setStatusFirst, if_neg h]
      exact List.Forall₂.cons ⟨rfl, fun _ => rfl⟩ ih

theorem find?_setStatusFirst_self (files : List File) (p : String) (st : SnapshotFileStatus)
    (h : (files.find? (fun f => f.path = p)).isSome) :
    (setStatusFirst files p st).find? (fun f => f.path = p) = some (toFile p st) := by
  induction files with
  | nil => simp [List.find?] at h
  | cons f rest ih =>
    by_cases hf : f.path = p
    · simp only [setStatusFirst, if_pos hf]
      rw [List.find?_cons_of_pos _ (by simpa using hf)]
      obtain ⟨fp, fs⟩ := f
      simp only at hf
      simp [toFile, hf]
    · simp only [setStatusFirst, if_neg hf]
      rw [List.find?_cons_of_neg _ (by simpa using hf)] at h
      rw [List.find?_cons_of_neg _ (by simpa using hf)]
      exact ih h

theorem find?_filter_ne (files : List File) (p q : String) (hne : q ≠ p) :
    (files.filter (fun f => f.path ≠ p)).find? (fun f => f.path = q) =
      files.find? (fun f => f.path = q) := by
  induction files with
  | nil => rfl
  | cons f rest ih =>
    by_cases hp : f.path = p
    · rw [List.filter_cons_of_neg (by simpa using hp),
        List.find?_cons_of_neg _ (by simp [hp]; exact fun h => hne h.symm)]
      exact ih
    · rw [List.filter_cons_of_pos (by simpa using hp)]
      by_cases hq : f.path = q
      · rw [List.find?_cons_of_pos _ (by simpa using hq),
          List.find?_cons_of_pos _ (by simpa using hq)]
      · rw [List.find?_cons_of_neg _ (by simpa using hq),
          List.find?_cons_of_neg _ (by simpa using hq)]
        exact ih

theorem find?_filter_self (files : List File) (p : String) :
    (files.filter (fun f => f.path ≠ p)).find? (fun f => f.path = p) = none := by
  rw [List.find?_eq_none]
  intro f hf
  have := (List.mem_filter.mp hf).2
  simpa using this

theorem setPathFirst_eq_of_none (files : List File) (op np : String)
    (h : files.find? (fun f => f.path = op) = none) :
    setPathFirst files op np = files := by
  induction files with
  | nil => rfl
  | cons f rest ih =>
    rw [List.find?_eq_none] at h
    have hf : ¬ f.path = op := by simpa using h f (List.mem_cons_self f rest)
    simp only [setPathFirst, if_neg hf]
    rw [ih (List.find?_eq_none.mpr fun g hg => h g (List.mem_cons_of_mem f hg))]

theorem map_path_setPathFirst_mem (files : List File) (op np : String) :
    ∀ q ∈ (setPathFirst files op np).map File.path,
      q = np ∨ q ∈ files.map File.path := by
  induction files with
  | nil => simp [setPathFirst]
  | cons f rest ih =>
    by_cases hf : f.path = op
    · simp only [setPathFirst, if_pos hf, List.map_cons]
      intro q hq
      rcases List.mem_cons.mp hq with h1 | h2
      · exact Or.inl h1
      · exact Or.inr (List.mem_cons_of_mem _ h2)
    · simp only [setPathFirst, if_neg hf, List.map_cons]
      intro q hq
      rcases List.mem_cons.mp hq with h1 | h2
      · exact Or.inr (h1 ▸ List.mem_cons_self _ _)
      · rcases ih q h2 with h3 | h4
        · exact Or.inl h3
        · exact Or.inr (List.mem_cons_of_mem _ h4)

theorem nodup_setPathFirst (files : List File) (op np : String)
    (hnodup : (files.map File.path).Nodup) (hfresh : ∀ f ∈ files, f.path ≠ np) :
    ((setPathFirst files op np).map File.path).Nodup := by
  induction files with
  | nil => simp [setPathFirst]
  | cons f rest ih =>
    simp only [List.map_cons, List.nodup_cons] at hnodup
    obtain ⟨hfn, hrest⟩ := hnodup
    by_cases hf : f.path = op
    · simp only [setPathFirst, if_pos hf, List.map_cons, List.nodup_cons]
      refine ⟨?_, hrest⟩
      intro hmem
      obtain ⟨g, hg, hgp⟩ := List.mem_map.mp hmem
      exact hfresh g (List.mem_cons_of_mem _ hg) hgp
    · simp only [setPathFirst, if_neg hf, List.map_cons, List.nodup_cons]
      refine ⟨?_, ih hrest fun g hg => hfresh g (List.mem_cons_of_mem _ hg)⟩
      intro hmem
      rcases map_path_setPathFirst_mem rest op np _ hmem with h1 | h2
      · exact hfresh f (List.mem_cons_self _ _) h1
      · exact hfn h2

theorem find?_setPathFirst_new (files : List File) (op np : String) (f0 : File)
    (hnew : ∀ f ∈ files, f.path ≠ np)
    (h : files.find? (fun f => f.path = op) = some f0) :
    (setPathFirst files op np).find? (fun f => f.path = np) =
      some { f0 with path := np } := by
  induction files with
  | nil => simp [List.find?] at h
  | cons f rest ih =>
    by_cases hf : f.path = op
    · rw [List.find?_cons_of_pos _ (by simpa using hf)] at h
      injection h with h
      subst h
      simp only [setPathFirst, if_pos hf]
      rw [List.find?_cons_of_pos _ (by simp)]
    · rw [List.find?_cons_of_neg _ (by simpa using hf)] at h
      simp only [setPathFirst, if_neg hf]
      rw [List.find?_cons_of_neg _ (by simpa using hnew f (List.mem_cons_self _ _))]
      exact ih (fun g hg => hnew g (List.mem_cons_of_mem _ hg)) h

theorem find?_setPathFirst_old (files : List File) (op np : String)
    (hnodup : (files.map File.path).Nodup) (hne : np ≠ op) :
    (setPathFirst files op np).find? (fun f => f.path = op) = none := by
  induction files with
  | nil => rfl
  | cons f rest ih =>
    simp only [List.map_cons, List.nodup_cons] at hnodup
    obtain ⟨hfn, hrest⟩ := hnodup
    by_cases hf : f.path = op
    · simp only [setPathFirst, if_pos hf]
      rw [List.find?_cons_of_neg _ (by simpa using hne)]
      rw [List.find?_eq_none]
      intro g hg
      simp only [decide_eq_true_eq]
      intro hgp
      exact hfn (hf ▸ hgp ▸ List.mem_map_of_mem File.path hg)
    · simp only [setPathFirst, if_neg hf]
      rw [List.find?_cons_of_neg _ (by simpa using hf)]
      exact ih hrest

theorem newFilesFor_map_path (files : List File) (ps : List String) :
    (newFilesFor files ps).map File.path =
      ps.filter (fun p => !(files.any (fun f => f.path = p))) := by
  simp only [newFilesFor, List.map_map]
  exact List.map_id _

theorem newFilesFor_filter_not_mem (files : List File) (ps : List String) :
    ps.filter (fun p => !(files.any (fun f => f.path = p))) =
      ps.filter (fun p => p ∉ files.map File.path) := by
  apply List.filter_congr
  intro p _
  by_cases h : p ∈ files.map File.path
  · obtain ⟨f, hf, hfp⟩ := List.mem_map.mp h
    have h1 : files.any (fun f => f.path = p) = true :=
      List.any_eq_true.mpr ⟨f, hf, by simpa using hfp⟩
    rw [h1]
    simp [h]
  · have h1 : files.any (fun f => f.path = p) = false := by
      rw [List.any_eq_false]
      intro f hf
      simp only [decide_eq_true_eq]
      intro hfp
      exact h (hfp ▸ List.mem_map_of_mem File.path hf)
    rw [h1]
    simp [h]

theorem uniq_createSnapshot (s : VaultReviewSettings) (ps : List String) (now : Nat)
    (hps : ps.Nodup) : UniqPaths (createSnapshot s ps now) := by
  show ((ps.map (fun p => toFile p .to_review)).map File.path).Nodup
  rw [List.map_map]
  show (ps.map id).Nodup
  rw [List.map_id]
  exact hps

theorem uniq_addNewFiles (s : VaultReviewSettings) (ps : List String)
    (h : UniqPaths s) (hps : ps.Nodup) : UniqPaths (addNewFiles s ps) := by
  obtain ⟨snap?, sett⟩ := s
  cases snap? with
  | none => exact h
  | some snap =>
    show ((snap.files ++ newFilesFor snap.files ps).map File.path).Nodup
    rw [List.map_append, List.nodup_append]
    refine ⟨h, ?_, ?_⟩
    · rw [newFilesFor_map_path, newFilesFor_filter_not_mem]
      exact hps.filter _
    · intro q hq hq2
      rw [newFilesFor_map_path, newFilesFor_filter_not_mem] at hq2
      have h2 := (List.mem_filter.mp hq2).2
      simp only [decide_eq_true_eq] at h2
      exact h2 hq

theorem uniq_completeReview (s : VaultReviewSettings) (p : String)
    (h : UniqPaths s) : UniqPaths (completeReview s p).1 := by
  obtain ⟨snap?, sett⟩ := s
  cases snap? with
  | none => exact h
  | some snap =>
    rcases hfind : snap.files.find? (fun f => f.path = p) with _ | f0
    · simp only [completeReview, getSnapshotFile, hfind]
      show ((snap.files ++ [toFile p .reviewed]).map File.path).Nodup
      rw [List.map_append, List.nodup_append]
      refine ⟨h, by simp, ?_⟩
      intro q hq hq2
      obtain ⟨f, hf, hfp⟩ := List.mem_map.mp hq
      simp only [List.map_cons, List.map_nil, List.mem_singleton, toFile_path] at hq2
      have := List.find?_eq_none.mp hfind f hf
      simp only [decide_eq_true_eq] at this
      exact this (hfp.trans hq2)
    · simp only [completeReview, getSnapshotFile, hfind]
      show ((setStatusFirst snap.files p .reviewed).map File.path).Nodup
      rw [setStatusFirst_map_path]
      exact h

theorem uniq_unreviewFile (s : VaultReviewSettings) (p : String)
    (h : UniqPaths s) : UniqPaths (unreviewFile s p).1 := by
  obtain ⟨snap?, sett⟩ := s
  cases snap? with
  | none => exact h
  | some snap =>
    rcases hfind : snap.files.find? (fun f => f.path = p) with _ | f0
    · simp only [unreviewFile, getSnapshotFile, hfind]
      show ((snap.files ++ [toFile p .to_review]).map File.path).Nodup
      rw [List.map_append, List.nodup_append]
      refine ⟨h, by simp, ?_⟩
      intro q hq hq2
      obtain ⟨f, hf, hfp⟩ := List.mem_map.mp hq
      simp only [List.map_cons, List.map_nil, List.mem_singleton, toFile_path] at hq2
      have := List.find?_eq_none.mp hfind f hf
      simp only [decide_eq_true_eq] at this
      exact this (hfp.trans hq2)
    · simp only [unreviewFile, getSnapshotFile, hfind]
      show ((setStatusFirst snap.files p .to_review).map File.path).Nodup
      rw [setStatusFirst_map_path]
      exact h

theorem uniq_handleFileRename (s : VaultReviewSettings) (np op : String)
    (h : UniqPaths s) (hfresh : getSnapshotFile s np = none) :
    UniqPaths (handleFileRename s np op) := by
  obtain ⟨snap?, sett⟩ := s
  cases snap? with
  | none => exact h
  | some snap =>
    rcases hfind : snap.files.find? (fun f => f.path = op) with _ | f0
    · simp only [handleFileRename, getSnapshotFile, hfind]
      exact h
    · simp only [handleFileRename, getSnapshotFile, hfind]
      show ((setPathFirst snap.files op np).map File.path).Nodup
      refine nodup_setPathFirst _ _ _ h ?_
      intro f hf
      have h2 : snap.files.find? (fun f => f.path = np) = none := by
        simpa [getSnapshotFile] using hfresh
      have := List.find?_eq_none.mp h2 f hf
      simpa using this

theorem uniq_handleFileDelete (s : VaultReviewSettings) (p : String)
    (h : UniqPaths s) : UniqPaths (handleFileDelete s p) := by
  obtain ⟨snap?, sett⟩ := s
  cases snap? with
  | none => exact h
  | some snap =>
    rcases hfind : snap.files.find? (fun f => f.path = p) with _ | f0
    · simp only [handleFileDelete, hfind]
      exact h
    · simp only [handleFileDelete, hfind]
      show ((setStatusFirst snap.files p .deleted).map File.path).Nodup
      rw [setStatusFirst_map_path]
      exact h

theorem uniq_focusFileMissing (s : VaultReviewSettings) (p : String)
    (h : UniqPaths s) : UniqPaths (focusFileMissing s p).1 := by
  obtain ⟨snap?, sett⟩ := s
  cases snap? with
  | none => exact h
  | some snap =>
    show ((snap.files.filter (fun fp => fp.path ≠ p)).map File.path).Nodup
    exact List.Nodup.sublist ((List.filter_sublist _).map File.path) h

theorem uniq_deleteSnapshot (s : VaultReviewSettings) (c : Bool)
    (h : UniqPaths s) : UniqPaths (deleteSnapshot s c).1 := by
  cases c with
  | false => exact h
  | true => simp [deleteSnapshot, UniqPaths]

/-- C1 counterexample: the claim fails as stated.  From the path-unique
snapshot `[{a, to_review}, {b, deleted}]`, the rename handler applied to a
vault rename of `a` onto the freed path `b` (the `b` entry stays tracked with
status `deleted`, so the vault can recreate and rename onto that path)
rewrites the `a` entry's path to `b`, leaving two tracked files with path
`b`: `handleFileRename` does not preserve the uniqueness invariant. -/
theorem rename_onto_tracked_path_breaks_uniqueness :
    UniqPaths exDeletedTracked ∧
      ¬ UniqPaths (handleFileRename exDeletedTracked "b" "a") := by
  constructor
  · decide
  · decide

/-- C1 (amended): every SnapshotStore operation preserves the at-most-one
TrackedFile-per-path invariant, provided the path lists fed to
`createSnapshot` and `addNewFiles` are duplicate-free and, for
`handleFileRename`, the rename's destination path is not already tracked;
`completeReview`, `unreviewFile` and `handleFileDelete` preserve it
unconditionally. -/
theorem uniqueness_invariant_preserved (s : VaultReviewSettings) (h : UniqPaths s) :
    (∀ ps now, ps.Nodup → UniqPaths (createSnapshot s ps now)) ∧
    (∀ ps, ps.Nodup → UniqPaths (addNewFiles s ps)) ∧
    (∀ p, UniqPaths (completeReview s p).1) ∧
    (∀ p, UniqPaths (unreviewFile s p).1) ∧
    (∀ np op, getSnapshotFile s np = none → UniqPaths (handleFileRename s np op)) ∧
    (∀ p, UniqPaths (handleFileDelete s p)) :=
  ⟨fun ps now hps => uniq_createSnapshot s ps now hps,
   fun ps hps => uniq_addNewFiles s ps h hps,
   fun p => uniq_completeReview s p h,
   fun p => uniq_unreviewFile s p h,
   fun np op hf => uniq_handleFileRename s np op h hf,
   fun p => uniq_handleFileDelete s p h⟩

/-- C1 witness: the amended preservation theorem applied at a concrete
path-unique state, for an untracked review and a rename to a fresh path. -/
theorem uniqueness_invariant_preserved_witness :
    UniqPaths (completeReview exInit "C").1 ∧
      UniqPaths (handleFileRename exInit "Z" "A") :=
  ⟨(uniqueness_invariant_preserved exInit (by decide)).2.2.1 "C",
   (uniqueness_invariant_preserved exInit (by decide)).2.2.2.2.1 "Z" "A" (by decide)⟩

/-- C2 counterexample: the missing-file branch of `focusFile` does not
produce the `handleFileDelete` state.  On the snapshot
`[{a, to_review}, {b, deleted}]` with the tracked path `a` unresolved,
`focusFile` removes the `a` entry outright while `handleFileDelete` keeps it
with status `deleted`, so the resulting states differ. -/
theorem focusFile_missing_differs_from_reconcileDelete :
    (focusFileMissing exDeletedTracked "a").1 ≠
      handleFileDelete exDeletedTracked "a" := by
  decide

/-- C2 (amended): when a tracked path no longer resolves to a real file, the
missing-file branch of `focusFile` reports exactly one user-visible notice
and removes every TrackedFile with that path from the snapshot (lookups of
other paths are unchanged) — the drop policy of the earlier revision — while
`handleFileDelete` instead keeps the entry and marks it `deleted`, so the two
reconciliation policies produce different snapshots on tracked paths. -/
theorem focusFile_missing_drop_policy (s : VaultReviewSettings) (p : String)
    (htracked : (getSnapshotFile s p).isSome) :
    (focusFileMissing s p).2 = ["Cannot find a file " ++ p] ∧
    getSnapshotFile (focusFileMissing s p).1 p = none ∧
    (∀ q, q ≠ p → getSnapshotFile (focusFileMissing s p).1 q = getSnapshotFile s q) ∧
    getSnapshotFile (handleFileDelete s p) p = some (toFile p .deleted) := by
  obtain ⟨snap?, sett⟩ := s
  cases snap? with
  | none => simp [getSnapshotFile] at htracked
  | some snap =>
    have hfind : (snap.files.find? (fun f => f.path = p)).isSome := by
      simpa [getSnapshotFile] using htracked
    refine ⟨rfl, ?_, ?_, ?_⟩
    · show (snap.files.filter (fun fp => fp.path ≠ p)).find? (fun f => f.path = p) = none
      exact find?_filter_self snap.files p
    · intro q hq
      show (snap.files.filter (fun fp => fp.path ≠ p)).find? (fun f => f.path = q) =
        snap.files.find? (fun f => f.path = q)
      exact find?_filter_ne snap.files p q hq
    · rcases hf : snap.files.find? (fun f => f.path = p) with _ | f0
      · rw [hf] at hfind
        simp at hfind
      · simp only [handleFileDelete, hf]
        show (setStatusFirst snap.files p .deleted).find? (fun f => f.path = p) =
          some (toFile p .deleted)
        exact find?_setStatusFirst_self snap.files p .deleted (by rw [hf]; rfl)

/-- C2 witness: the amended drop-policy theorem applied at a concrete state
with tracked path `A`: the focus branch drops the entry while the delete
handler marks it `deleted`. -/
theorem focusFile_missing_drop_policy_witness :
    getSnapshotFile (focusFileMissing exInit "A").1 "A" = none ∧
      getSnapshotFile (handleFileDelete exInit "A") "A" = some (toFile "A" .deleted) :=
  ⟨(focusFile_missing_drop_policy exInit "A" (by decide)).2.1,
   (focusFile_missing_drop_policy exInit "A" (by decide)).2.2.2⟩

/-- C3: `deleteSnapshot` with confirmation required has exactly two
outcomes: a declined confirmation resolves `cancelled` with the entire state
(snapshot contents, order and `createdAt` included) unchanged, and a
confirmed one resolves `deleted`, clears the snapshot to absent and makes
`getToReviewFiles` return the empty sequence. -/
theorem deleteSnapshot_two_outcomes (s : VaultReviewSettings) :
    deleteSnapshot s false = (s, DeleteSnapshotResult.cancelled) ∧
    (deleteSnapshot s true).2 = DeleteSnapshotResult.deleted ∧
    (deleteSnapshot s true).1.snapshot = none ∧
    getToReviewFiles (deleteSnapshot s true).1 = [] :=
  ⟨rfl, rfl, rfl, rfl⟩

/-- C6: `createSnapshot` replaces any existing snapshot unconditionally with
exactly one TrackedFile per input path, all `to_review`, in input order, with
`createdAt` set to the given current time (the result does not depend on the
previous snapshot). -/
theorem createSnapshot_spec (s : VaultReviewSettings) (ps : List String) (now : Nat) :
    (createSnapshot s ps now).snapshot =
      some ({ files := ps.map (fun p => toFile p .to_review), createdAt := now }) ∧
    (((createSnapshot s ps now).snapshot.map Snapshot.files).getD []).map File.path = ps ∧
    ((((createSnapshot s ps now).snapshot.map Snapshot.files).getD []).all
      (fun f => f.status = SnapshotFileStatus.to_review)) = true ∧
    createSnapshot s ps now = createSnapshot ⟨none, s.settings⟩ ps now := by
  refine ⟨rfl, ?_, ?_, rfl⟩
  · show (ps.map (fun p => toFile p .to_review)).map File.path = ps
    rw [List.map_map]
    exact List.map_id _
  · rw [List.all_eq_true]
    intro f hf
    have hf2 : f ∈ ps.map (fun p => toFile p SnapshotFileStatus.to_review) := hf
    obtain ⟨p, hp, rfl⟩ := List.mem_map.mp hf2
    simp [toFile]

/-- C9: with no snapshot present, `completeReview` and `unreviewFile` leave
the stored state completely unchanged — the optional-chained push drops the
append silently — yet still emit the notice claiming the file was added to
the snapshot. -/
theorem mutators_without_snapshot_noop_but_notice (s : VaultReviewSettings) (p : String)
    (h : s.snapshot = none) :
    completeReview s p = (s, ["File was added to snapshot and marked as reviewed"]) ∧
    unreviewFile s p = (s, ["File was added to snapshot and marked as not reviewed"]) := by
  obtain ⟨snap?, sett⟩ := s
  cases snap? with
  | none => exact ⟨rfl, rfl⟩
  | some snap => exact Option.noConfusion h

/-- C9 witness: the no-snapshot no-op-with-notice theorem at a concrete
snapshotless state. -/
theorem mutators_without_snapshot_witness :
    completeReview exNoSnapshot "A" =
      (exNoSnapshot, ["File was added to snapshot and marked as reviewed"]) ∧
    unreviewFile exNoSnapshot "A" =
      (exNoSnapshot, ["File was added to snapshot and marked as not reviewed"]) :=
  mutators_without_snapshot_noop_but_notice exNoSnapshot "A" rfl

/-- C4: the random pick of `openRandomFile` never yields a file whose status
differs from `to_review` (in particular never a `reviewed` one), and —
for any index the randomness source can actually produce, that is, an
in-range index when the to-review list is nonempty — it yields `none`
exactly when `getToReviewFiles` is empty. -/
theorem openRandomFile_pick_spec (s : VaultReviewSettings) (i : Nat)
    (hi : i < (getToReviewFiles s).length ∨ (getToReviewFiles s).length = 0) :
    (∀ f, (openRandomFile s i).1 = some f → f.status = SnapshotFileStatus.to_review) ∧
    ((openRandomFile s i).1 = none ↔ getToReviewFiles s = []) := by
  obtain ⟨snap?, sett⟩ := s
  cases snap? with
  | none =>
    refine ⟨?_, ?_⟩
    · intro f hf
      exact Option.noConfusion hf
    · simp [openRandomFile, getToReviewFiles]
  | some snap =>
    simp only [openRandomFile]
    by_cases hemp : (getToReviewFiles ⟨some snap, sett⟩).isEmpty = true
    · rw [if_pos hemp]
      rw [List.isEmpty_iff] at hemp
      refine ⟨?_, ?_⟩
      · intro f hf
        exact Option.noConfusion hf
      · simpa using hemp
    · rw [if_neg hemp]
      rw [List.isEmpty_iff] at hemp
      have hlen : (getToReviewFiles ⟨some snap, sett⟩).length ≠ 0 := by
        intro h0
        exact hemp (List.length_eq_zero.mp h0)
      rcases hi with hi | hi
      · refine ⟨?_, ?_⟩
        · intro f hf
          have hf2 := List.get?_mem hf
          have hf3 : f ∈ snap.files.filter
              (fun file => file.status = SnapshotFileStatus.to_review) := hf2
          have := (List.mem_filter.mp hf3).2
          simpa using this
        · constructor
          · intro hnone
            rw [List.get?_eq_none] at hnone
            omega
          · intro hempty
            exact absurd hempty hemp
      · exact absurd hi hlen

/-- C4 witness: the pick specification applied at a concrete state with one
to-review file and the draw index 0. -/
theorem openRandomFile_pick_spec_witness :
    (openRandomFile exInit 0).1 = none ↔ getToReviewFiles exInit = [] :=
  (openRandomFile_pick_spec exInit 0 (Or.inl (by decide))).2

/-- C5: on a path-unique snapshot tracking `old` and not tracking `new`,
`handleFileRename` transfers the stored status: afterwards `new` reports the
pre-rename status of `old` and `old` reports `new` (untracked); when `old`
is untracked the whole operation leaves the state unchanged. -/
theorem reconcileRename_status_transfer (s : VaultReviewSettings) (op np : String)
    (huniq : UniqPaths s) :
    ((getSnapshotFile s op).isSome → getSnapshotFile s np = none →
      getActiveFileStatus (handleFileRename s np op) np = getActiveFileStatus s op ∧
      getActiveFileStatus (handleFileRename s np op) op = FileStatus.new) ∧
    (getSnapshotFile s op = none → handleFileRename s np op = s) := by
  obtain ⟨snap?, sett⟩ := s
  constructor
  · intro htr hfresh
    cases snap? with
    | none => simp [getSnapshotFile] at htr
    | some snap =>
      obtain ⟨f0, hf0⟩ := Option.isSome_iff_exists.mp htr
      have hfind : snap.files.find? (fun f => f.path = op) = some f0 := by
        simpa [getSnapshotFile] using hf0
      have hfr : snap.files.find? (fun f => f.path = np) = none := by
        simpa [getSnapshotFile] using hfresh
      have hne : np ≠ op := by
        intro h
        rw [h, hfind] at hfr
        exact Option.noConfusion hfr
      have hnewmem : ∀ f ∈ snap.files, f.path ≠ np := by
        intro f hf
        have := List.find?_eq_none.mp hfr f hf
        simpa using this
      constructor
      · have h1 := find?_setPathFirst_new snap.files op np f0 hnewmem hfind
        simp only [getActiveFileStatus, getSnapshotFile, handleFileRename, hfind, h1]
      · have h2 := find?_setPathFirst_old snap.files op np huniq hne
        simp only [getActiveFileStatus, getSnapshotFile, handleFileRename, hfind, h2]
  · intro hnone
    cases snap? with
    | none => rfl
    | some snap =>
      have hfind : snap.files.find? (fun f => f.path = op) = none := by
        simpa [getSnapshotFile] using hnone
      simp only [handleFileRename, getSnapshotFile, hfind]

/-- C5 witness: the rename status-transfer theorem at a concrete state,
renaming the tracked path `A` to the untracked path `Z`. -/
theorem reconcileRename_status_transfer_witness :
    getActiveFileStatus (handleFileRename exInit "Z" "A") "Z" =
      getActiveFileStatus exInit "A" ∧
    getActiveFileStatus (handleFileRename exInit "Z" "A") "A" = FileStatus.new :=
  (reconcileRename_status_transfer exInit "A" "Z" (by decide)).1 (by decide) (by decide)

theorem newFilesFor_after_append (files : List File) (ps : List String) :
    newFilesFor (files ++ newFilesFor files ps) ps = [] := by
  have hfil : ps.filter
      (fun p => !((files ++ newFilesFor files ps).any (fun f => f.path = p))) = [] := by
    rw [List.filter_eq_nil_iff]
    intro p hp
    have hany : (files ++ newFilesFor files ps).any (fun f => f.path = p) = true := by
      rw [List.any_append]
      cases h : files.any (fun f => f.path = p) with
      | true => exact Bool.or_eq_true_iff.mpr (Or.inl rfl)
      | false =>
        apply Bool.or_eq_true_iff.mpr
        right
        rw [List.any_eq_true]
        refine ⟨toFile p .to_review, ?_, by simp⟩
        exact List.mem_map_of_mem _ (List.mem_filter.mpr ⟨hp, by simp [h]⟩)
    simp [hany]
  rw [newFilesFor, hfil]
  rfl

theorem addNewFiles_twice (s : VaultReviewSettings) (ps : List String) :
    addNewFiles (addNewFiles s ps) ps = addNewFiles s ps := by
  obtain ⟨snap?, sett⟩ := s
  cases snap? with
  | none => rfl
  | some snap =>
    show (⟨some ⟨(snap.files ++ newFilesFor snap.files ps) ++
        newFilesFor (snap.files ++ newFilesFor snap.files ps) ps,
        snap.createdAt⟩, sett⟩ : VaultReviewSettings) =
      ⟨some ⟨snap.files ++ newFilesFor snap.files ps, snap.createdAt⟩, sett⟩
    rw [newFilesFor_after_append, List.append_nil]

/-- C7: `addNewFiles` is idempotent — the second application with the same
input list changes nothing — and the single application appends, after the
existing entries, exactly one `to_review` entry per input path not already
tracked (by exact path match), and is a no-op when no snapshot exists. -/
theorem addNewFiles_idempotent (s : VaultReviewSettings) (ps : List String) :
    addNewFiles (addNewFiles s ps) ps = addNewFiles s ps ∧
    (s.snapshot = none → addNewFiles s ps = s) ∧
    (∀ snap, s.snapshot = some snap →
      (addNewFiles s ps).snapshot =
        some ({ snap with files := snap.files ++ newFilesFor snap.files ps }) ∧
      (newFilesFor snap.files ps).map File.path =
        ps.filter (fun p => p ∉ snap.files.map File.path) ∧
      ∀ f ∈ newFilesFor snap.files ps, f.status = SnapshotFileStatus.to_review) := by
  refine ⟨addNewFiles_twice s ps, ?_, ?_⟩
  · intro h
    obtain ⟨snap?, sett⟩ := s
    cases snap? with
    | none => rfl
    | some snap => exact Option.noConfusion h
  · intro snap hs
    obtain ⟨snap?, sett⟩ := s
    cases snap? with
    | none => exact Option.noConfusion hs
    | some snap' =>
      injection hs with hs
      subst hs
      refine ⟨rfl, ?_, ?_⟩
      · rw [newFilesFor_map_path, newFilesFor_filter_not_mem]
      · intro f hf
        obtain ⟨p, hp, rfl⟩ := List.mem_map.mp hf
        rfl

/-- C7 witness: idempotence at a concrete state and input, and the
no-snapshot no-op with its hypothesis discharged. -/
theorem addNewFiles_idempotent_witness :
    addNewFiles (addNewFiles exInit ["A", "C"]) ["A", "C"] =
      addNewFiles exInit ["A", "C"] ∧
    addNewFiles exNoSnapshot ["A"] = exNoSnapshot :=
  ⟨(addNewFiles_idempotent exInit ["A", "C"]).1,
   (addNewFiles_idempotent exNoSnapshot ["A"]).2.1 rfl⟩

/-- C8: with a snapshot present, `completeReview` on an untracked path
appends a `reviewed` TrackedFile at the end and emits exactly the auto-added
notice; on a tracked path it flips the existing entry to `reviewed` in place
— same length, lookup at the path now `reviewed`, and no notice. -/
theorem completeReview_append_or_update (s : VaultReviewSettings) (snap : Snapshot)
    (p : String) (hs : s.snapshot = some snap) :
    (getSnapshotFile s p = none →
      (completeReview s p).1 =
        { s with snapshot := some ({ snap with files := snap.files ++ [toFile p .reviewed] }) } ∧
      (completeReview s p).2 = ["File was added to snapshot and marked as reviewed"]) ∧
    (∀ f0, getSnapshotFile s p = some f0 →
      (completeReview s p).1.snapshot =
        some ({ snap with files := setStatusFirst snap.files p .reviewed }) ∧
      (setStatusFirst snap.files p .reviewed).length = snap.files.length ∧
      getSnapshotFile (completeReview s p).1 p = some (toFile p .reviewed) ∧
      (completeReview s p).2 = []) := by
  obtain ⟨snap?, sett⟩ := s
  have hs2 : snap? = some snap := hs
  subst hs2
  constructor
  · intro hnone
    have hfind : snap.files.find? (fun f => f.path = p) = none := by
      simpa [getSnapshotFile] using hnone
    constructor
    · simp only [completeReview, getSnapshotFile, hfind]
    · simp only [completeReview, getSnapshotFile, hfind]
  · intro f0 hf0
    have hfind : snap.files.find? (fun f => f.path = p) = some f0 := by
      simpa [getSnapshotFile] using hf0
    refine ⟨?_, setStatusFirst_length _ _ _, ?_, ?_⟩
    · simp only [completeReview, getSnapshotFile, hfind]
    · simp only [completeReview, getSnapshotFile, hfind]
      show (setStatusFirst snap.files p .reviewed).find? (fun f => f.path = p) =
        some (toFile p .reviewed)
      exact find?_setStatusFirst_self snap.files p .reviewed (by rw [hfind]; rfl)
    · simp only [completeReview, getSnapshotFile, hfind]

/-- C8 witness: the spec scenario — from snapshot
`[{A, to_review}, {B, reviewed}]`, reviewing the untracked path `C` appends
`{C, reviewed}` and emits exactly one notice. -/
theorem completeReview_append_or_update_witness :
    (completeReview exInit "C").1 =
      { exInit with snapshot := some ({ (⟨[toFile "A" .to_review, toFile "B" .reviewed], 0⟩ : Snapshot) with
          files := [toFile "A" .to_review, toFile "B" .reviewed] ++ [toFile "C" .reviewed] }) } ∧
    (completeReview exInit "C").2 = ["File was added to snapshot and marked as reviewed"] :=
  (completeReview_append_or_update exInit
    ⟨[toFile "A" .to_review, toFile "B" .reviewed], 0⟩ "C" rfl).1 (by decide)

/-- Files of the current snapshot (empty when absent); lookup helper for the
frame theorem. -/
def snapFiles (s : VaultReviewSettings) : List File :=
  (s.snapshot.map Snapshot.files).getD []

/-- Creation time of the current snapshot, when present. -/
def snapCreatedAt (s : VaultReviewSettings) : Option Nat :=
  s.snapshot.map Snapshot.createdAt

/-- C10: frame property of the status mutators — on a tracked path `p`,
`completeReview` and `unreviewFile` keep the display settings, the
snapshot's `createdAt`, the number and order of tracked files and every
entry's path; entries whose path differs from `p` are unchanged entirely
(only the `p` entry's status may change). -/
theorem status_mutators_frame (s : VaultReviewSettings) (snap : Snapshot) (p : String)
    (hs : s.snapshot = some snap) (htracked : (getSnapshotFile s p).isSome) :
    (completeReview s p).1.settings = s.settings ∧
    (unreviewFile s p).1.settings = s.settings ∧
    snapCreatedAt (completeReview s p).1 = some snap.createdAt ∧
    snapCreatedAt (unreviewFile s p).1 = some snap.createdAt ∧
    (snapFiles (completeReview s p).1).length = snap.files.length ∧
    (snapFiles (unreviewFile s p).1).length = snap.files.length ∧
    List.Forall₂ (fun a b => b.path = a.path ∧ (a.path ≠ p → b = a))
      snap.files (snapFiles (completeReview s p).1) ∧
    List.Forall₂ (fun a b => b.path = a.path ∧ (a.path ≠ p → b = a))
      snap.files (snapFiles (unreviewFile s p).1) := by
  obtain ⟨snap?, sett⟩ := s
  have hs2 : snap? = some snap := hs
  subst hs2
  obtain ⟨f0, hf0⟩ := Option.isSome_iff_exists.mp htracked
  have hfind : snap.files.find? (fun f => f.path = p) = some f0 := by
    simpa [getSnapshotFile] using hf0
  refine ⟨?_, ?_, ?_, ?_, ?_, ?_, ?_, ?_⟩
  · simp only [completeReview, getSnapshotFile, hfind]
  · simp only [unreviewFile, getSnapshotFile, hfind]
  · simp only [completeReview, getSnapshotFile, hfind, snapCreatedAt]
    rfl
  · simp only [unreviewFile, getSnapshotFile, hfind, snapCreatedAt]
    rfl
  · simp only [completeReview, getSnapshotFile, hfind, snapFiles]
    exact setStatusFirst_length _ _ _
  · simp only [unreviewFile, getSnapshotFile, hfind, snapFiles]
    exact setStatusFirst_length _ _ _
  · simp only [completeReview, getSnapshotFile, hfind, snapFiles]
    exact setStatusFirst_forall₂ _ _ _
  · simp only [unreviewFile, getSnapshotFile, hfind, snapFiles]
    exact setStatusFirst_forall₂ _ _ _

/-- C10 witness: binder-free consequences of the frame theorem at a concrete
state with the tracked path `A`. -/
theorem status_mutators_frame_witness :
    (completeReview exInit "A").1.settings = exInit.settings ∧
    (snapFiles (completeReview exInit "A").1).length =
      ([toFile "A" .to_review, toFile "B" .reviewed] : List File).length ∧
    snapCreatedAt (unreviewFile exInit "A").1 = some 0 :=
  ⟨(status_mutators_frame exInit ⟨[toFile "A" .to_review, toFile "B" .reviewed], 0⟩ "A"
      rfl (by decide)).1,
   (status_mutators_frame exInit ⟨[toFile "A" .to_review, toFile "B" .reviewed], 0⟩ "A"
      rfl (by decide)).2.2.2.2.1,
   (status_mutators_frame exInit ⟨[toFile "A" .to_review, toFile "B" .reviewed], 0⟩ "A"
      rfl (by decide)).2.2.2.1⟩

end VaultReview
